import Mathlib

/-!
Verification of the qwen35-rp reverse proxy (Go) against its specification.

The development shallowly embeds the transformation pipeline of
`src/transform.go` (request rewriting, buffered response rectification,
SSE stream reframing) together with the helpers of `src/unnamed/part_003`
(`applySamplingParams`, `rewriteRequestURL` is not needed).

Modelling conventions:
* Go `map[string]any` values decoded from JSON are modelled by the inductive
  type `JValue`; an object is an association list (`JObj`).  Go maps cannot
  hold duplicate keys, and the JSON decoder collapses duplicates (last write
  wins), so list operations are chosen to agree with map semantics on
  duplicate-free lists (`jErase` removes every binding of a key, exactly as
  `delete` on a map).
* JSON numbers are carried as their serialized literal (`JValue.num lit`).
  Go decodes numbers into `float64` and re-serializes them in shortest form;
  keeping the literal abstracts that round-trip (none of the verified
  properties depends on number normalization).
* Byte strings are modelled as `List Char`, one entry per byte for the
  ASCII payloads the proxy manipulates.
-/

/-- JSON values as decoded by Go's `encoding/json` into `any`. -/
inductive JValue where
  | null : JValue
  | bool (b : Bool) : JValue
  | num (lit : String) : JValue
  | str (s : String) : JValue
  | arr (elems : List JValue) : JValue
  | obj (fields : List (String × JValue)) : JValue

/-- A decoded JSON object (Go `map[string]any`). -/
abbrev JObj := List (String × JValue)

/-- Map read `data[k]`: first binding of `k` (lists we build are duplicate-free). -/
def jGet : JObj → String → Option JValue
  | [], _ => none
  | (k', v') :: rest, k => if k' = k then some v' else jGet rest k

/-- Map write `data[k] = v`: replace the binding in place, else append. -/
def jInsert : JObj → String → JValue → JObj
  | [], k, v => [(k, v)]
  | (k', v') :: rest, k, v =>
    if k' = k then (k, v) :: rest else (k', v') :: jInsert rest k v

/-- Map delete `delete(data, k)`: removes the key entirely. -/
def jErase : JObj → String → JObj
  | [], _ => []
  | (k', v') :: rest, k =>
    if k' = k then jErase rest k else (k', v') :: jErase rest k

/-- Nested read `data[k1][k2]` when `data[k1]` is an object. -/
def jGet2 (o : JObj) (k1 k2 : String) : Option JValue :=
  match jGet o k1 with
  | some (JValue.obj inner) => jGet inner k2
  | _ => none

/-! ### Sampling profiles (src/transform.go lines 17-54)

The Go literals mix `float64` and `int`; both are JSON numbers, carried here
as the literal `encoding/json` would emit for them. -/

/-- Thinking mode for general tasks (src/transform.go 19-26). -/
def thinkingGeneralParams : JObj :=
  [("temperature", JValue.num "1"), ("top_p", JValue.num "0.95"),
   ("top_k", JValue.num "20"), ("min_p", JValue.num "0"),
   ("presence_penalty", JValue.num "1.5"), ("repetition_penalty", JValue.num "1")]

/-- Thinking mode for precise coding tasks (src/transform.go 28-35). -/
def thinkingCodingParams : JObj :=
  [("temperature", JValue.num "0.6"), ("top_p", JValue.num "0.95"),
   ("top_k", JValue.num "20"), ("min_p", JValue.num "0"),
   ("presence_penalty", JValue.num "0"), ("repetition_penalty", JValue.num "1")]

/-- Instruct mode for general tasks (src/transform.go 37-44). -/
def instructGeneralParams : JObj :=
  [("temperature", JValue.num "0.7"), ("top_p", JValue.num "0.8"),
   ("top_k", JValue.num "20"), ("min_p", JValue.num "0"),
   ("presence_penalty", JValue.num "1.5"), ("repetition_penalty", JValue.num "1")]

/-- Instruct mode for reasoning tasks (src/transform.go 46-53). -/
def instructReasoningParams : JObj :=
  [("temperature", JValue.num "1"), ("top_p", JValue.num "0.95"),
   ("top_k", JValue.num "20"), ("min_p", JValue.num "0"),
   ("presence_penalty", JValue.num "1.5"), ("repetition_penalty", JValue.num "1")]

/-- The six sampling keys shared by all four profiles. -/
def samplingKeys : List String :=
  ["temperature", "top_p", "top_k", "min_p", "presence_penalty", "repetition_penalty"]

/-- The configuration slice that `transform` receives (src/transform.go 56-57). -/
structure ProxyConfig where
  servedModel : String
  thinkingGeneral : String
  thinkingCoding : String
  instructGeneral : String
  instructReasoning : String
  enforce : Bool
deriving DecidableEq

/-- `applySamplingParams` (fill branch from src/unnamed/part_003 lines 330-342:
a key already present in the request is not modified, otherwise the default is
written).

Modelled from the spec: the body of the four-argument variant taking the
`enforceSamplingParams` flag that `src/transform.go` calls is not under `src/`;
per the README (`src/unnamed/part_000`, "Enforce Sampling Parameters") and spec
section 4.2, when enforce is enabled the proxy always overrides client-provided
sampling parameters with the profile values.  Go map iteration order is
unspecified, but each key is handled independently, so a list fold is
order-equivalent. -/
def applySamplingParams (data : JObj) (samplingParams : JObj) (enforce : Bool) : JObj :=
  samplingParams.foldl
    (fun d kv =>
      if enforce = false ∧ (jGet d kv.1).isSome then d else jInsert d kv.1 kv.2)
    data

/-- The model-name switch of `transform` (src/transform.go 89-122): Go matches
the four `case` arms in order, yielding the sampling profile and think flag. -/
def resolveModel (cfg : ProxyConfig) (modelName : String) : Option (JObj × Bool) :=
  if modelName = cfg.thinkingGeneral then some (thinkingGeneralParams, true)
  else if modelName = cfg.thinkingCoding then some (thinkingCodingParams, true)
  else if modelName = cfg.instructGeneral then some (instructGeneralParams, false)
  else if modelName = cfg.instructReasoning then some (instructReasoningParams, false)
  else none

/-- Whether the request body carries a string `"model"` naming a registered
virtual model — the combined check of src/transform.go lines 78-83 and the
`default` arm of the switch (lines 118-121). -/
def registeredModel (cfg : ProxyConfig) (data : JObj) : Bool :=
  match jGet data "model" with
  | some (JValue.str m) => (resolveModel cfg m).isSome
  | _ => false

/-- Outcome of `json.Unmarshal(requestBody, &data)` with `data : map[string]any`:
an error (`fail`, for bytes that are not valid JSON or whose top-level value is
neither an object nor `null`), a `nil` map (JSON `null`), or a decoded object. -/
inductive ParseOutcome where
  | fail : ParseOutcome
  | nilMap : ParseOutcome
  | obj (o : JObj) : ParseOutcome

/-- What `transform` hands to the upstream dispatcher on success. -/
structure TransformOut where
  body : JObj
  think : Bool
  stream : Bool

/-- The `stream` tracking of src/transform.go 85-87: a present `stream` value
is read with a soft type assertion (`stream, _ = streamVal.(bool)`), so any
non-boolean value leaves it `false`. -/
def readStreamFlag (data : JObj) : Bool :=
  match jGet data "stream" with
  | some (JValue.bool b) => b
  | _ => false

/-- The request-rewriting phase of `transform` (src/transform.go 58-156), from
the parsed body up to the marshalled outgoing body.  `Except.error n` models
`httpError(ctx, w, n)` followed by `return` — the handler responds with HTTP
status `n` and never contacts the backend.

* parse failure → 500 (lines 72-77);
* `null` body → nil map, so `data["model"].(string)` yields `ok = false` → 400
  (lines 78-83);
* missing/non-string/unregistered model → 400 (lines 78-83, 118-121);
* `stream` read with a soft type assertion, defaulting to false (lines 85-87);
* sampling params applied per profile (lines 96, 103, 110, 117);
* model overridden with the served name (line 126);
* `chat_template_kwargs` must be an object if present (lines 128-140), else 400.
-/
def transformReq (cfg : ProxyConfig) (p : ParseOutcome) : Except Nat TransformOut :=
  match p with
  | ParseOutcome.fail => Except.error 500
  | ParseOutcome.nilMap => Except.error 400
  | ParseOutcome.obj data =>
    match jGet data "model" with
    | some (JValue.str modelName) =>
      let stream : Bool := readStreamFlag data
      match resolveModel cfg modelName with
      | some (params, think) =>
        let data1 := applySamplingParams data params cfg.enforce
        let data2 := jInsert data1 "model" (JValue.str cfg.servedModel)
        match jGet data2 "chat_template_kwargs" with
        | some (JValue.obj kw) =>
          Except.ok ⟨jInsert data2 "chat_template_kwargs"
              (JValue.obj (jInsert kw "enable_thinking" (JValue.bool think))),
            think, stream⟩
        | some _ => Except.error 400
        | none =>
          Except.ok ⟨jInsert data2 "chat_template_kwargs"
              (JValue.obj [("enable_thinking", JValue.bool think)]),
            think, stream⟩
      | none => Except.error 400
    | _ => Except.error 400

/-! ### Byte-level JSON codec

`json.Unmarshal` / `json.Marshal` are Go standard library collaborators; they
are embedded here only as far as the proxy's behaviour depends on them:
strict JSON grammar on input (duplicate object keys collapse, last one wins),
and Go's `map[string]any` marshalling on output (keys sorted, strings escaped
with HTML escaping on).  Number literals round-trip verbatim (see the header
note).  Bytes are `List Char`. -/

/-- Literal `{` (written via its code point to keep it out of string/char syntax). -/
def lbrace : Char := Char.ofNat 123

/-- Literal `}`. -/
def rbrace : Char := Char.ofNat 125

/-- JSON insignificant whitespace accepted by Go's decoder. -/
def isJSONSpace (c : Char) : Bool :=
  c = ' ' ∨ c = '\t' ∨ c = '\n' ∨ c = '\r'

/-- Skip insignificant whitespace. -/
def skipWs : List Char → List Char
  | [] => []
  | c :: rest => if isJSONSpace c then skipWs rest else c :: rest

/-- Value of a hexadecimal digit. -/
def hexVal (c : Char) : Option Nat :=
  if '0' ≤ c ∧ c ≤ '9' then some (c.toNat - '0'.toNat)
  else if 'a' ≤ c ∧ c ≤ 'f' then some (c.toNat - 'a'.toNat + 10)
  else if 'A' ≤ c ∧ c ≤ 'F' then some (c.toNat - 'A'.toNat + 10)
  else none

/-- Decode a JSON string body (after the opening quote): returns the decoded
characters and the remainder after the closing quote.  Raw control characters
are rejected, as in Go.  (Surrogate-pair recombination of `\u` escapes is
abstracted: each escape yields one character.) -/
def parseStringBody : Nat → List Char → Option (List Char × List Char)
  | 0, _ => none
  | _, [] => none
  | fuel + 1, c :: rest =>
    if c = '"' then some ([], rest)
    else if c = '\\' then
      match rest with
      | [] => none
      | e :: rest2 =>
        if e = '"' ∨ e = '\\' ∨ e = '/' then
          (parseStringBody fuel rest2).map (fun p => (e :: p.1, p.2))
        else if e = 'b' then
          (parseStringBody fuel rest2).map (fun p => (Char.ofNat 8 :: p.1, p.2))
        else if e = 'f' then
          (parseStringBody fuel rest2).map (fun p => (Char.ofNat 12 :: p.1, p.2))
        else if e = 'n' then
          (parseStringBody fuel rest2).map (fun p => ('\n' :: p.1, p.2))
        else if e = 'r' then
          (parseStringBody fuel rest2).map (fun p => ('\r' :: p.1, p.2))
        else if e = 't' then
          (parseStringBody fuel rest2).map (fun p => ('\t' :: p.1, p.2))
        else if e = 'u' then
          match rest2 with
          | h1 :: h2 :: h3 :: h4 :: rest3 =>
            match hexVal h1, hexVal h2, hexVal h3, hexVal h4 with
            | some a, some b, some c2, some d =>
              (parseStringBody fuel rest3).map
                (fun p => (Char.ofNat (a * 4096 + b * 256 + c2 * 16 + d) :: p.1, p.2))
            | _, _, _, _ => none
          | _ => none
        else none
    else if c.toNat < 32 then none
    else (parseStringBody fuel rest).map (fun p => (c :: p.1, p.2))

/-- Longest digit run at the head of the input. -/
def spanDigits : List Char → List Char × List Char
  | [] => ([], [])
  | c :: rest =>
    if '0' ≤ c ∧ c ≤ '9' then
      let p := spanDigits rest
      (c :: p.1, p.2)
    else ([], c :: rest)

/-- JSON integer part: `0`, or a nonzero digit followed by digits. -/
def parseIntPart : List Char → Option (List Char × List Char)
  | [] => none
  | c :: rest =>
    if c = '0' then some ([c], rest)
    else if '1' ≤ c ∧ c ≤ '9' then
      let p := spanDigits rest
      some (c :: p.1, p.2)
    else none

/-- Optional JSON fraction part `.digits`. -/
def parseFracPart (cs : List Char) : Option (List Char × List Char) :=
  match cs with
  | '.' :: rest =>
    let p := spanDigits rest
    if p.1 = [] then none else some ('.' :: p.1, p.2)
  | _ => some ([], cs)

/-- Optional JSON exponent part `[eE][+-]?digits`. -/
def parseExpPart (cs : List Char) : Option (List Char × List Char) :=
  match cs with
  | [] => some ([], cs)
  | c :: rest =>
    if c = 'e' ∨ c = 'E' then
      let sgn : List Char × List Char :=
        match rest with
        | s :: r => if s = '+' ∨ s = '-' then ([s], r) else ([], rest)
        | [] => ([], rest)
      let p := spanDigits sgn.2
      if p.1 = [] then none else some (c :: sgn.1 ++ p.1, p.2)
    else some ([], cs)

/-- A JSON number literal (strict grammar, as Go's scanner checks); the literal
is kept verbatim. -/
def parseNumberLit (cs : List Char) : Option (List Char × List Char) :=
  let neg : List Char × List Char :=
    match cs with
    | c :: r => if c = '-' then ([c], r) else ([], cs)
    | [] => ([], cs)
  match parseIntPart neg.2 with
  | none => none
  | some (ip, r1) =>
    match parseFracPart r1 with
    | none => none
    | some (fp, r2) =>
      match parseExpPart r2 with
      | none => none
      | some (ep, r3) => some (neg.1 ++ ip ++ fp ++ ep, r3)

mutual

/-- Parse one JSON value (recursive-descent, fuel-indexed; every recursive call
consumes at least one input character per unit of fuel, so `length + 1` fuel
suffices at top level). -/
def parseVal : Nat → List Char → Option (JValue × List Char)
  | 0, _ => none
  | fuel + 1, cs =>
    match skipWs cs with
    | [] => none
    | c :: rest =>
      if c = 'n' then
        match rest with
        | 'u' :: 'l' :: 'l' :: r => some (JValue.null, r)
        | _ => none
      else if c = 't' then
        match rest with
        | 'r' :: 'u' :: 'e' :: r => some (JValue.bool true, r)
        | _ => none
      else if c = 'f' then
        match rest with
        | 'a' :: 'l' :: 's' :: 'e' :: r => some (JValue.bool false, r)
        | _ => none
      else if c = '"' then
        (parseStringBody fuel rest).map (fun p => (JValue.str (String.mk p.1), p.2))
      else if c = '[' then
        match skipWs rest with
        | ']' :: r => some (JValue.arr [], r)
        | cs2 => (parseArrItems fuel cs2).map (fun p => (JValue.arr p.1, p.2))
      else if c = lbrace then
        match skipWs rest with
        | [] => none
        | c2 :: r =>
          if c2 = rbrace then some (JValue.obj [], r)
          else (parseObjItems fuel (c2 :: r) []).map (fun p => (JValue.obj p.1, p.2))
      else (parseNumberLit (c :: rest)).map (fun p => (JValue.num (String.mk p.1), p.2))

/-- Parse the comma-separated elements of a (non-empty) array up to `]`. -/
def parseArrItems : Nat → List Char → Option (List JValue × List Char)
  | 0, _ => none
  | fuel + 1, cs =>
    match parseVal fuel cs with
    | none => none
    | some (v, rest) =>
      match skipWs rest with
      | ',' :: r => (parseArrItems fuel r).map (fun p => (v :: p.1, p.2))
      | ']' :: r => some ([v], r)
      | _ => none

/-- Parse the members of a (non-empty) object up to `}`; duplicate keys
collapse with the last write winning, as when Go decodes into a map. -/
def parseObjItems : Nat → List Char → JObj → Option (JObj × List Char)
  | 0, _, _ => none
  | fuel + 1, cs, acc =>
    match skipWs cs with
    | [] => none
    | c :: rest =>
      if c = '"' then
        match parseStringBody fuel rest with
        | none => none
        | some (key, r1) =>
          match skipWs r1 with
          | ':' :: r2 =>
            match parseVal fuel r2 with
            | none => none
            | some (v, r3) =>
              let acc2 := jInsert acc (String.mk key) v
              match skipWs r3 with
              | ',' :: r4 => parseObjItems fuel r4 acc2
              | c4 :: r4 => if c4 = rbrace then some (acc2, r4) else none
              | [] => none
          | _ => none
      else none

end

/-- `json.Unmarshal` of a whole byte slice into `any`: one JSON value,
optionally surrounded by whitespace. -/
def goUnmarshal (cs : List Char) : Option JValue :=
  match parseVal (cs.length + 1) cs with
  | some (v, rest) => if skipWs rest = [] then some v else none
  | none => none

/-- `json.Unmarshal` into `map[string]any` (src/transform.go line 72): fails
unless the body is a JSON object or `null` (the latter leaves the map `nil`). -/
def parseRequestBody (cs : List Char) : ParseOutcome :=
  match goUnmarshal cs with
  | some (JValue.obj o) => ParseOutcome.obj o
  | some JValue.null => ParseOutcome.nilMap
  | _ => ParseOutcome.fail

/-- `transform`'s request phase from raw body bytes. -/
def transformReqBytes (cfg : ProxyConfig) (cs : List Char) : Except Nat TransformOut :=
  transformReq cfg (parseRequestBody cs)

/-- Lowercase hexadecimal digit. -/
def hexDigitChar (n : Nat) : Char :=
  if n < 10 then Char.ofNat ('0'.toNat + n) else Char.ofNat ('a'.toNat + n - 10)

/-- `\uXXXX` escape. -/
def uEscape (n : Nat) : List Char :=
  ['\\', 'u', hexDigitChar (n / 4096 % 16), hexDigitChar (n / 256 % 16),
   hexDigitChar (n / 16 % 16), hexDigitChar (n % 16)]

/-- Go `encoding/json` string escaping (HTML escaping enabled, as in
`json.Marshal`). -/
def escapeJSONChar (c : Char) : List Char :=
  if c = '"' then ['\\', '"']
  else if c = '\\' then ['\\', '\\']
  else if c = '\n' then ['\\', 'n']
  else if c = '\r' then ['\\', 'r']
  else if c = '\t' then ['\\', 't']
  else if c = '<' ∨ c = '>' ∨ c = '&' then uEscape c.toNat
  else if c.toNat < 32 then uEscape c.toNat
  else if c.toNat = 8232 ∨ c.toNat = 8233 then uEscape c.toNat
  else [c]

/-- Marshal a string, quotes included. -/
def marshalString (s : String) : List Char :=
  '"' :: (s.data.map escapeJSONChar).flatten ++ ['"']

/-- Byte-lexicographic order on keys (Go `sort.Strings`; UTF-8 byte order
coincides with code-point order). -/
def charListLE : List Char → List Char → Bool
  | [], _ => true
  | _ :: _, [] => false
  | a :: as, b :: bs => if a = b then charListLE as bs else decide (a < b)

/-- Insert a marshalled field into a key-sorted list. -/
def insertPairSorted (kv : String × List Char) :
    List (String × List Char) → List (String × List Char)
  | [] => [kv]
  | hd :: tl =>
    if charListLE kv.1.data hd.1.data then kv :: hd :: tl
    else hd :: insertPairSorted kv tl

/-- Sort marshalled fields by key (Go marshals maps with sorted keys). -/
def sortPairs : List (String × List Char) → List (String × List Char)
  | [] => []
  | kv :: rest => insertPairSorted kv (sortPairs rest)

/-- Join marshalled object members with commas. -/
def goMarshalObjFields : List (String × List Char) → List Char
  | [] => []
  | [(k, bs)] => marshalString k ++ ':' :: bs
  | (k, bs) :: rest => marshalString k ++ ':' :: bs ++ ',' :: goMarshalObjFields rest

mutual

/-- `json.Marshal` of a decoded value (map keys sorted, HTML escaping on,
number literals emitted verbatim — see the codec header note). -/
def goMarshal : JValue → List Char
  | JValue.null => "null".data
  | JValue.bool b => if b then "true".data else "false".data
  | JValue.num lit => lit.data
  | JValue.str s => marshalString s
  | JValue.arr es => '[' :: goMarshalItems es ++ [']']
  | JValue.obj fs => lbrace :: goMarshalObjFields (sortPairs (goMarshalFields fs)) ++ [rbrace]

/-- Marshal array elements, comma-separated. -/
def goMarshalItems : List JValue → List Char
  | [] => []
  | [v] => goMarshal v
  | v :: rest => goMarshal v ++ ',' :: goMarshalItems rest

/-- Marshal each field's value, keeping the key for sorting. -/
def goMarshalFields : List (String × JValue) → List (String × List Char)
  | [] => []
  | (k, v) :: rest => (k, goMarshal v) :: goMarshalFields rest

end

/-! ### Buffered response rectification (src/transform.go 208-341)

Both repair functions act on the response bytes only through
`json.Unmarshal` into `map[string]any` (and `json.Marshal` back), so the
body is abstracted by that outcome: `raw` carries bytes the unmarshal
rejects (not valid JSON, or valid JSON that is neither an object nor
`null`), `null` is the JSON `null` body (a `nil` map: every lookup misses),
and `val` carries a decoded object.  A function returning its `RespBody`
argument unchanged models returning the original byte slice. -/

/-- A backend response body, classified by its `json.Unmarshal` outcome. -/
inductive RespBody where
  | raw (s : String) : RespBody
  | null : RespBody
  | val (o : JObj) : RespBody

/-- The `content` check of src/transform.go 253-260: true when `content` is
absent, present but not a string (`hasContent` stays false), or the empty
string. -/
def contentEmpty (msg : JObj) : Bool :=
  match jGet msg "content" with
  | some (JValue.str s) => s = ""
  | some _ => true
  | none => true

/-- Whether `reasoning_content` or `reasoning` is present as a string
(src/transform.go 261-262, the two `ok` flags). -/
def hasReasoningField (msg : JObj) : Bool :=
  (match jGet msg "reasoning_content" with
   | some (JValue.str _) => true
   | _ => false) ||
  (match jGet msg "reasoning" with
   | some (JValue.str _) => true
   | _ => false)

/-- The `reasoningText` selection of src/transform.go 266-274: prefer a
non-empty `reasoning_content`, else a non-empty `reasoning`, else `""`. -/
def reasoningText (msg : JObj) : String :=
  match jGet msg "reasoning_content" with
  | some (JValue.str rc) =>
    if rc ≠ "" then rc
    else
      match jGet msg "reasoning" with
      | some (JValue.str r) => r
      | _ => ""
  | _ =>
    match jGet msg "reasoning" with
    | some (JValue.str r) => r
    | _ => ""

/-- Whether the fix of src/transform.go 265-287 fires on this message. -/
def msgFixes (msg : JObj) : Bool :=
  contentEmpty msg && hasReasoningField msg && reasoningText msg ≠ ""

/-- The per-message rewrite (src/transform.go 276-287): move the reasoning
text into `content` and delete both source fields. -/
def fixMessage (msg : JObj) : JObj :=
  if msgFixes msg then
    jErase (jErase (jInsert msg "content" (JValue.str (reasoningText msg)))
        "reasoning_content")
      "reasoning"
  else msg

/-- The message/delta selection of src/transform.go 237-249: an object under
`message` is preferred (with its key, for the write-back of lines 290-294),
else one under `delta`; anything else skips the choice. -/
def choiceMessage (m : JObj) : Option (String × JObj) :=
  match jGet m "message" with
  | some (JValue.obj msg) => some ("message", msg)
  | _ =>
    match jGet m "delta" with
    | some (JValue.obj d) => some ("delta", d)
    | _ => none

/-- One iteration of the choices loop (src/transform.go 231-296): a choice
must be an object holding an object under `message` (preferred) or `delta`;
anything else passes through. -/
def fixChoice (c : JValue) : JValue :=
  match c with
  | JValue.obj m =>
    match choiceMessage m with
    | some (key, msg) => JValue.obj (jInsert m key (JValue.obj (fixMessage msg)))
    | none => c
  | _ => c

/-- Whether a choice contributes to the `modified` flag. -/
def choiceFixes (c : JValue) : Bool :=
  match c with
  | JValue.obj m =>
    match choiceMessage m with
    | some (_, msg) => msgFixes msg
    | none => false
  | _ => false

/-- The choices-level body of `fixVLLMResponse` (src/transform.go 217-310) on
a decoded object: requires a non-empty `choices` array, rewrites each choice,
and re-marshals only when some choice was modified (`RespBody.val data` is the
original body returned on the passthrough paths). -/
def fixVLLMObj (data : JObj) : RespBody :=
  match jGet data "choices" with
  | some (JValue.arr choices) =>
    match choices with
    | [] => RespBody.val data
    | _ =>
      if choices.any choiceFixes then
        RespBody.val (jInsert data "choices" (JValue.arr (choices.map fixChoice)))
      else RespBody.val data
  | _ => RespBody.val data

/-- `fixVLLMResponse` (src/transform.go 211-311): repairs misplaced reasoning
content, only for think=false and stream=false; passes everything else (parse
failures, missing/empty `choices`) through unchanged. -/
def fixVLLMResponse (responseBody : RespBody) (think stream : Bool) : RespBody :=
  if think || stream then responseBody
  else
    match responseBody with
    | RespBody.val data => fixVLLMObj data
    | b => b

/-- `fixModelName` (src/transform.go 315-341): restore the virtual model name
in a buffered response.  When `model` is present, line 326 evaluates
`data["model"].(string)` with no `ok` check (inside the `slog.String`
argument, built before any level filtering), so a present non-string `model`
panics: `none` models that panic. -/
def fixModelName (responseBody : RespBody) (virtualModel : String) : Option RespBody :=
  match responseBody with
  | RespBody.val data =>
    match jGet data "model" with
    | some (JValue.str _) =>
      some (RespBody.val (jInsert data "model" (JValue.str virtualModel)))
    | some _ => none
    | none => some responseBody
  | _ => some responseBody

/-- The buffered (non-streaming) response path of `transform`
(src/transform.go 193-197): content fix, then model-name restoration. -/
def rectifyBuffered (responseBody : RespBody) (think : Bool) (virtualModel : String) :
    Option RespBody :=
  fixModelName (fixVLLMResponse responseBody think false) virtualModel

/-! ### SSE stream reframing (src/transform.go 344-440) -/

/-- The `data: ` event prefix. -/
def dataColonSpace : List Char := "data: ".data

/-- The `[DONE]` sentinel. -/
def doneLit : List Char := "[DONE]".data

/-- `unicode.IsSpace` on the characters `bytes.TrimSpace` can meet here
(ASCII whitespace plus NEL and NBSP). -/
def goIsSpace (c : Char) : Bool :=
  c = ' ' ∨ c = '\t' ∨ c = '\n' ∨ c = Char.ofNat 11 ∨ c = Char.ofNat 12 ∨
  c = '\r' ∨ c = Char.ofNat 133 ∨ c = Char.ofNat 160

/-- `bytes.TrimSpace`. -/
def goTrimSpace (cs : List Char) : List Char :=
  ((cs.dropWhile goIsSpace).reverse.dropWhile goIsSpace).reverse

/-- `fixModelNameInSSE` (src/transform.go 397-440): within one `data: ` event,
pass `[DONE]` and empty payloads through, otherwise parse the payload; if a
*string* `model` field is present (this path type-checks it, unlike
`fixModelName`), overwrite it and rebuild the event as
`data: <json>\n\n`; any other shape returns the event unchanged. -/
def fixModelNameInSSE (event : List Char) (virtualModel : String) : List Char :=
  if dataColonSpace.isPrefixOf event then
    if goTrimSpace (event.drop 6) = [] ∨ goTrimSpace (event.drop 6) = doneLit then
      event
    else
      match goUnmarshal (goTrimSpace (event.drop 6)) with
      | some (JValue.obj data) =>
        match jGet data "model" with
        | some (JValue.str _) =>
          dataColonSpace ++
            goMarshal (JValue.obj (jInsert data "model" (JValue.str virtualModel))) ++
            ['\n', '\n']
        | _ => event
      | _ => event
  else event

/-- Index of the first `\n\n` (Go `bytes.Index(buf, "\n\n")`). -/
def findDoubleNL : List Char → Option Nat
  | [] => none
  | [_] => none
  | a :: b :: rest =>
    if a = '\n' ∧ b = '\n' then some 0
    else (findDoubleNL (b :: rest)).map (· + 1)

/-- The inner event-extraction loop of `streamResponse` (src/transform.go
367-384): repeatedly split off complete events (including their `\n\n`),
returning them in order with the unterminated remainder. -/
def processBuffer (buf : List Char) : List (List Char) × List Char :=
  if h : (findDoubleNL buf).isSome then
    let i := (findDoubleNL buf).get h
    let p := processBuffer (buf.drop (i + 2))
    (buf.take (i + 2) :: p.1, p.2)
  else ([], buf)
termination_by buf.length
decreasing_by
  obtain ⟨i', hi⟩ := Option.isSome_iff_exists.mp h
  have hne : buf ≠ [] := by
    intro hb
    rw [hb] at hi
    simp [findDoubleNL] at hi
  have hpos : 0 < buf.length := List.length_pos.mpr hne
  simp [hi]
  omega

/-- Per-event handling before the write (src/transform.go 376-379). -/
def emitEvent (virtualModel : String) (event : List Char) : List Char :=
  if dataColonSpace.isPrefixOf event then fixModelNameInSSE event virtualModel
  else event

/-- One read iteration of `streamResponse` (src/transform.go 348-393),
parameterized by the per-event rewrite `f`: append the chunk, extract and
emit complete events, then apply the 8 KiB safety valve (flush the raw
remainder verbatim and reset).  Returns (writes, retained buffer). -/
def streamStepWith (f : List Char → List Char) (buf chunk : List Char) :
    List (List Char) × List Char :=
  if (processBuffer (buf ++ chunk)).2.length > 8192 then
    ((processBuffer (buf ++ chunk)).1.map f ++ [(processBuffer (buf ++ chunk)).2], [])
  else ((processBuffer (buf ++ chunk)).1.map f, (processBuffer (buf ++ chunk)).2)

/-- The full read loop: chunks are the successful reads from the backend body,
in order, followed by a clean EOF, on which any residual bytes are flushed
verbatim (src/transform.go 353-362).  Returns the sequence of client writes. -/
def streamLoopWith (f : List Char → List Char) (buf : List Char) :
    List (List Char) → List (List Char)
  | [] => if buf = [] then [] else [buf]
  | c :: cs =>
    (streamStepWith f buf c).1 ++ streamLoopWith f (streamStepWith f buf c).2 cs

/-- `streamResponse` (src/transform.go 344-394): the SSE reframer with the
model-name rewrite of src/transform.go 376-379. -/
def streamResponse (virtualModel : String) (chunks : List (List Char)) :
    List (List Char) :=
  streamLoopWith (emitEvent virtualModel) [] chunks

/-- An SSE frame is *proper* when its only `\n\n` is its terminator. -/
abbrev properEvent (e : List Char) : Prop :=
  findDoubleNL e = some (e.length - 2)

/-! ### Concrete instances used to exercise the theorems -/

/-- A sample configuration: served model `served`, virtual models `tg`, `tc`,
`ig`, `ir`, enforce-sampling-params enabled. -/
def cfgEx : ProxyConfig := ⟨"served", "tg", "tc", "ig", "ir", true⟩

/-- Request body `{"model":"tg"}`. -/
def reqEx1 : JObj := [("model", JValue.str "tg")]

/-- Outgoing body for `reqEx1` under `cfgEx`. -/
def bodyEx1 : JObj :=
  [("model", JValue.str "served"), ("temperature", JValue.num "1"),
   ("top_p", JValue.num "0.95"), ("top_k", JValue.num "20"),
   ("min_p", JValue.num "0"), ("presence_penalty", JValue.num "1.5"),
   ("repetition_penalty", JValue.num "1"),
   ("chat_template_kwargs", JValue.obj [("enable_thinking", JValue.bool true)])]

/-- Request body `{"model":"ig","temperature":0.42}`. -/
def reqEx8 : JObj := [("model", JValue.str "ig"), ("temperature", JValue.num "0.42")]

/-- Outgoing body for `reqEx8` under `cfgEx` (enforce on: 0.42 overridden). -/
def bodyEx8 : JObj :=
  [("model", JValue.str "served"), ("temperature", JValue.num "0.7"),
   ("top_p", JValue.num "0.8"), ("top_k", JValue.num "20"),
   ("min_p", JValue.num "0"), ("presence_penalty", JValue.num "1.5"),
   ("repetition_penalty", JValue.num "1"),
   ("chat_template_kwargs", JValue.obj [("enable_thinking", JValue.bool false)])]

/-- Request body `{"model":"tg","messages":[]}`. -/
def reqEx10 : JObj := [("model", JValue.str "tg"), ("messages", JValue.arr [])]

/-- Outgoing body for `reqEx10` under `cfgEx`. -/
def bodyEx10 : JObj :=
  [("model", JValue.str "served"), ("messages", JValue.arr []),
   ("temperature", JValue.num "1"), ("top_p", JValue.num "0.95"),
   ("top_k", JValue.num "20"), ("min_p", JValue.num "0"),
   ("presence_penalty", JValue.num "1.5"), ("repetition_penalty", JValue.num "1"),
   ("chat_template_kwargs", JValue.obj [("enable_thinking", JValue.bool true)])]

/-- A message whose backend answer landed in `reasoning_content`. -/
def msgEx2 : JObj := [("content", JValue.str ""), ("reasoning_content", JValue.str "hello")]

/-- Buffered backend body holding `msgEx2` in its single choice. -/
def respEx2 : JObj :=
  [("model", JValue.str "served"),
   ("choices", JValue.arr [JValue.obj [("message", JValue.obj msgEx2)]])]

/-! ### Map lemmas -/

/-- The index found by `findDoubleNL` leaves at least two characters in range. -/
theorem findDoubleNL_some_le {l : List Char} {i : Nat}
    (h : findDoubleNL l = some i) : i + 2 ≤ l.length := by
  induction l generalizing i with
  | nil => simp [findDoubleNL] at h
  | cons a tail ih =>
    match tail with
    | [] => simp [findDoubleNL] at h
    | b :: rest =>
      by_cases hnl : a = '\n' ∧ b = '\n'
      · simp [findDoubleNL, hnl] at h
        simp [List.length_cons]
        omega
      · simp [findDoubleNL, hnl] at h
        obtain ⟨j, hj, hij⟩ := h
        have := ih hj
        simp [List.length_cons] at this ⊢
        omega

theorem jGet_jInsert_self (o : JObj) (k : String) (v : JValue) :
    jGet (jInsert o k v) k = some v := by
  induction o with
  | nil => simp [jInsert, jGet]
  | cons hd tl ih =>
    obtain ⟨k', v'⟩ := hd
    by_cases h : k' = k
    · simp [jInsert, h, jGet]
    · simp [jInsert, h, jGet, ih]

theorem jGet_jInsert_ne (o : JObj) (k k2 : String) (v : JValue) (h : k2 ≠ k) :
    jGet (jInsert o k v) k2 = jGet o k2 := by
  have hk : ¬k = k2 := fun hh => h hh.symm
  induction o with
  | nil => simp [jInsert, jGet, hk]
  | cons hd tl ih =>
    obtain ⟨k', v'⟩ := hd
    by_cases h' : k' = k
    · subst h'
      simp [jInsert, jGet, hk]
    · simp [jInsert, h', jGet, ih]

theorem jGet_jErase_self (o : JObj) (k : String) : jGet (jErase o k) k = none := by
  induction o with
  | nil => simp [jErase, jGet]
  | cons hd tl ih =>
    obtain ⟨k', v'⟩ := hd
    by_cases h : k' = k
    · simpa [jErase, h] using ih
    · simpa [jErase, jGet, h] using ih

theorem jGet_jErase_ne (o : JObj) (k k2 : String) (h : k2 ≠ k) :
    jGet (jErase o k) k2 = jGet o k2 := by
  induction o with
  | nil => simp [jErase, jGet]
  | cons hd tl ih =>
    obtain ⟨k', v'⟩ := hd
    by_cases h' : k' = k
    · have hk : ¬k = k2 := fun hh => h hh.symm
      simpa [jErase, jGet, h', hk] using ih
    · by_cases h2 : k' = k2
      · simp [jErase, jGet, h', h2, h]
      · simpa [jErase, jGet, h', h2] using ih

theorem jInsert_eq_self {o : JObj} {k : String} {v : JValue}
    (h : jGet o k = some v) : jInsert o k v = o := by
  induction o with
  | nil => simp [jGet] at h
  | cons hd tl ih =>
    obtain ⟨k', v'⟩ := hd
    by_cases h' : k' = k
    · subst h'
      simp [jGet] at h
      simp [jInsert, h]
    · simp [jGet, h'] at h
      simp [jInsert, h', ih h]

/-! ### `applySamplingParams` lemmas -/

theorem applySamplingParams_cons (d : JObj) (kv : String × JValue) (ps : JObj)
    (e : Bool) :
    applySamplingParams d (kv :: ps) e =
      applySamplingParams
        (if e = false ∧ (jGet d kv.1).isSome then d else jInsert d kv.1 kv.2) ps e := rfl

theorem applySamplingParams_mono {d : JObj} {k : String} (ps : JObj) (e : Bool)
    (h : (jGet d k).isSome = true) :
    (jGet (applySamplingParams d ps e) k).isSome = true := by
  induction ps generalizing d with
  | nil => exact h
  | cons kv rest ih =>
    rw [applySamplingParams_cons]
    by_cases hc : e = false ∧ (jGet d kv.1).isSome
    · simpa [hc] using ih h
    · simp only [hc, if_false]
      by_cases hk : k = kv.1
      · exact ih (by simp [hk, jGet_jInsert_self])
      · exact ih (by simpa [jGet_jInsert_ne _ _ _ _ hk] using h)

theorem applySamplingParams_present {d : JObj} {k : String} {ps : JObj} (e : Bool)
    (h : k ∈ ps.map Prod.fst) :
    (jGet (applySamplingParams d ps e) k).isSome = true := by
  induction ps generalizing d with
  | nil => simp at h
  | cons kv rest ih =>
    rw [applySamplingParams_cons]
    rw [List.map_cons] at h
    rcases List.mem_cons.mp h with hk | hk
    · subst hk
      by_cases hc : e = false ∧ (jGet d kv.1).isSome = true
      · rw [if_pos hc]
        exact applySamplingParams_mono rest e hc.2
      · rw [if_neg hc]
        exact applySamplingParams_mono rest e (by simp [jGet_jInsert_self])
    · exact ih hk

theorem applySamplingParams_frame {d : JObj} {k : String} {ps : JObj} (e : Bool)
    (h : k ∉ ps.map Prod.fst) :
    jGet (applySamplingParams d ps e) k = jGet d k := by
  induction ps generalizing d with
  | nil => rfl
  | cons kv rest ih =>
    rw [applySamplingParams_cons]
    have hk : k ≠ kv.1 := by
      intro hh
      exact h (by simp [hh])
    have hrest : k ∉ rest.map Prod.fst := fun hh => h (by simp [hh])
    by_cases hc : e = false ∧ (jGet d kv.1).isSome
    · simpa [hc] using ih hrest
    · simp only [hc, if_false]
      rw [ih hrest, jGet_jInsert_ne _ _ _ _ hk]

theorem applySamplingParams_fill_keep {d : JObj} {k : String} {ps : JObj}
    (h : (jGet d k).isSome = true) :
    jGet (applySamplingParams d ps false) k = jGet d k := by
  induction ps generalizing d with
  | nil => rfl
  | cons kv rest ih =>
    rw [applySamplingParams_cons]
    by_cases hc : (jGet d kv.1).isSome = true
    · rw [if_pos ⟨rfl, hc⟩]
      exact ih h
    · have hk : k ≠ kv.1 := fun hh => hc (hh ▸ h)
      rw [if_neg (fun hcc => hc hcc.2)]
      rw [ih (by rw [jGet_jInsert_ne _ _ _ _ hk]; exact h),
        jGet_jInsert_ne _ _ _ _ hk]

theorem applySamplingParams_enforce_get {d : JObj} {k : String} {v : JValue}
    {ps : JObj} (hnd : (ps.map Prod.fst).Nodup) (h : (k, v) ∈ ps) :
    jGet (applySamplingParams d ps true) k = some v := by
  induction ps generalizing d with
  | nil => simp at h
  | cons kv rest ih =>
    rw [applySamplingParams_cons]
    rw [List.map_cons] at hnd
    have hnd' := List.nodup_cons.mp hnd
    rw [if_neg (fun hcc => absurd hcc.1 (by decide))]
    rcases List.mem_cons.mp h with hk | hk
    · subst hk
      rw [applySamplingParams_frame true hnd'.1, jGet_jInsert_self]
    · exact ih hnd'.2 hk

/-! ### Resolver and transform lemmas -/

theorem resolveModel_keys {cfg : ProxyConfig} {m : String} {p : JObj} {t : Bool}
    (h : resolveModel cfg m = some (p, t)) : p.map Prod.fst = samplingKeys := by
  unfold resolveModel at h
  split_ifs at h <;> (cases h; rfl)

theorem resolveModel_keys_nodup {cfg : ProxyConfig} {m : String} {p : JObj}
    {t : Bool} (h : resolveModel cfg m = some (p, t)) :
    (p.map Prod.fst).Nodup := by
  rw [resolveModel_keys h]
  decide

theorem resolveModel_think {cfg : ProxyConfig} {m : String} {p : JObj} {t : Bool}
    (h : resolveModel cfg m = some (p, t)) :
    (t = true ↔ (m = cfg.thinkingGeneral ∨ m = cfg.thinkingCoding)) := by
  unfold resolveModel at h
  split_ifs at h with h1 h2 h3 h4
  · cases h
    simp [Or.inl h1]
  · cases h
    simp [Or.inr h2]
  · cases h
    simp [h1, h2]
  · cases h
    simp [h1, h2]

theorem transformReq_ok_inv {cfg : ProxyConfig} {d : JObj} {out : TransformOut}
    (h : transformReq cfg (ParseOutcome.obj d) = Except.ok out) :
    ∃ m params,
      jGet d "model" = some (JValue.str m) ∧
      resolveModel cfg m = some (params, out.think) ∧
      ((∃ kw,
          jGet (jInsert (applySamplingParams d params cfg.enforce) "model"
              (JValue.str cfg.servedModel)) "chat_template_kwargs" =
            some (JValue.obj kw) ∧
          out.body = jInsert
            (jInsert (applySamplingParams d params cfg.enforce) "model"
              (JValue.str cfg.servedModel))
            "chat_template_kwargs"
            (JValue.obj (jInsert kw "enable_thinking" (JValue.bool out.think)))) ∨
        (jGet (jInsert (applySamplingParams d params cfg.enforce) "model"
            (JValue.str cfg.servedModel)) "chat_template_kwargs" = none ∧
          out.body = jInsert
            (jInsert (applySamplingParams d params cfg.enforce) "model"
              (JValue.str cfg.servedModel))
            "chat_template_kwargs"
            (JValue.obj [("enable_thinking", JValue.bool out.think)]))) := by
  simp only [transformReq] at h
  split at h
  · rename_i modelName hm
    split at h
    · rename_i pr params think hres
      refine ⟨modelName, params, hm, ?_⟩
      split at h
      · rename_i kw hkw
        cases h
        exact ⟨hres, Or.inl ⟨kw, hkw, rfl⟩⟩
      · exact absurd h (by simp)
      · rename_i hkw
        cases h
        exact ⟨hres, Or.inr ⟨hkw, rfl⟩⟩
    · exact absurd h (by simp)
  · exact absurd h (by simp)

theorem samplingKeys_ne {k : String} (hk : k ∈ samplingKeys) :
    k ≠ "model" ∧ k ≠ "chat_template_kwargs" := by
  have h : k = "temperature" ∨ k = "top_p" ∨ k = "top_k" ∨ k = "min_p" ∨
      k = "presence_penalty" ∨ k = "repetition_penalty" := by
    simpa [samplingKeys] using hk
  rcases h with h | h | h | h | h | h <;> subst h <;> exact ⟨by decide, by decide⟩

theorem resolveModel_temperature {cfg : ProxyConfig} {m : String} {p : JObj}
    {t : Bool} (h : resolveModel cfg m = some (p, t)) :
    ∃ v, jGet p "temperature" = some v ∧ ("temperature", v) ∈ p := by
  unfold resolveModel at h
  split_ifs at h <;> (cases h; exact ⟨_, rfl, List.mem_cons_self _ _⟩)

/-- **C1.** For every request whose body parses as a JSON object and whose
`model` string equals a registered virtual model name, whenever `transform`
forwards a body to the backend, that body has `model` equal to the configured
served-model name, carries a value for each of the six sampling keys, and has
`chat_template_kwargs.enable_thinking` set to `true` exactly when the resolved
virtual model is a thinking model (thinking-general or thinking-coding) and
`false` otherwise. -/
theorem claim1_request_rewrite (cfg : ProxyConfig) (d : JObj) (out : TransformOut)
    (m : String)
    (h : transformReq cfg (ParseOutcome.obj d) = Except.ok out)
    (hm : jGet d "model" = some (JValue.str m)) :
    jGet out.body "model" = some (JValue.str cfg.servedModel) ∧
    (∀ k ∈ samplingKeys, (jGet out.body k).isSome = true) ∧
    jGet2 out.body "chat_template_kwargs" "enable_thinking" =
      some (JValue.bool out.think) ∧
    (out.think = true ↔ (m = cfg.thinkingGeneral ∨ m = cfg.thinkingCoding)) := by
  obtain ⟨m', params, hm', hres, hbody⟩ := transformReq_ok_inv h
  rw [hm] at hm'
  have hmm : m = m' := JValue.str.inj (Option.some.inj hm')
  subst hmm
  refine ⟨?_, ?_, ?_, resolveModel_think hres⟩
  · rcases hbody with ⟨kw, hkw, hb⟩ | ⟨hkw, hb⟩ <;>
      rw [hb, jGet_jInsert_ne _ _ _ _ (by decide), jGet_jInsert_self]
  · intro k hk
    have hne := samplingKeys_ne hk
    have hp : k ∈ params.map Prod.fst := by
      rw [resolveModel_keys hres]
      exact hk
    rcases hbody with ⟨kw, hkw, hb⟩ | ⟨hkw, hb⟩ <;>
      (rw [hb, jGet_jInsert_ne _ _ _ _ hne.2, jGet_jInsert_ne _ _ _ _ hne.1]
       exact applySamplingParams_present cfg.enforce hp)
  · rcases hbody with ⟨kw, hkw, hb⟩ | ⟨hkw, hb⟩ <;>
      simp [hb, jGet2, jGet_jInsert_self, jGet]

theorem claim1_witness :
    jGet bodyEx1 "model" = some (JValue.str "served") ∧
    (jGet bodyEx1 "temperature").isSome = true ∧
    jGet2 bodyEx1 "chat_template_kwargs" "enable_thinking" =
      some (JValue.bool true) ∧
    (true = true ↔ ("tg" = "tg" ∨ "tg" = "tc")) := by
  have h := claim1_request_rewrite cfgEx reqEx1 ⟨bodyEx1, true, false⟩ "tg" rfl rfl
  exact ⟨h.1, h.2.1 "temperature" (by simp [samplingKeys]), h.2.2.1, h.2.2.2⟩

/-- **C4 (counterexample).** The request body `[1,2]` is valid JSON but not an
object, so `json.Unmarshal` into the map fails; `transform` answers HTTP 500
(src/transform.go 72-77), not 400 as the claim states. -/
theorem claim4_counterexample :
    transformReqBytes cfgEx ("[1,2]".data) = Except.error 500 ∧ (500 : Nat) ≠ 400 :=
  ⟨rfl, by decide⟩

/-- **C4 (amended).** For every request body that `json.Unmarshal` cannot
decode into a map (not valid JSON, or valid JSON whose top-level value is
neither an object nor `null`), the transformer rejects the request before any
backend call — but with HTTP 500, not 400.  (A `null` body instead reaches the
model check and is rejected with 400.) -/
theorem claim4_malformed_body (cfg : ProxyConfig) (cs : List Char)
    (h : parseRequestBody cs = ParseOutcome.fail) :
    transformReqBytes cfg cs = Except.error 500 := by
  unfold transformReqBytes
  rw [h]
  rfl

theorem claim4_witness :
    parseRequestBody ("not json".data) = ParseOutcome.fail ∧
    transformReqBytes cfgEx ("not json".data) = Except.error 500 :=
  ⟨rfl, claim4_malformed_body cfgEx ("not json".data) rfl⟩

/-- **C5.** For every request whose `model` field is absent, non-string, or not
equal to any registered virtual model name, `transform` answers HTTP 400 and
returns before the backend request is built or sent (src/transform.go 78-83 and
118-121). -/
theorem claim5_unknown_model (cfg : ProxyConfig) (d : JObj)
    (h : registeredModel cfg d = false) :
    transformReq cfg (ParseOutcome.obj d) = Except.error 400 := by
  simp only [transformReq]
  split
  · rename_i modelName hm
    simp only [registeredModel, hm] at h
    split
    · rename_i pr params think hres
      rw [hres] at h
      simp at h
    · rfl
  · rfl

theorem claim5_witness :
    registeredModel cfgEx [("model", JValue.str "gpt-4")] = false ∧
    transformReq cfgEx (ParseOutcome.obj [("model", JValue.str "gpt-4")]) =
      Except.error 400 :=
  ⟨rfl, claim5_unknown_model cfgEx [("model", JValue.str "gpt-4")] rfl⟩

/-- **C8.** For every accepted request already carrying `temperature = 0.42`,
the outgoing body keeps `0.42` when enforce-sampling-params is off (fill
policy: present keys are never modified) and carries the resolved profile's
default when enforce is on. -/
theorem claim8_fill_enforce (cfg : ProxyConfig) (d : JObj) (m : String) (p : JObj)
    (t : Bool) (out : TransformOut)
    (hm : jGet d "model" = some (JValue.str m))
    (hres : resolveModel cfg m = some (p, t))
    (htemp : jGet d "temperature" = some (JValue.num "0.42"))
    (hout : transformReq cfg (ParseOutcome.obj d) = Except.ok out) :
    jGet out.body "temperature" =
      if cfg.enforce then jGet p "temperature" else some (JValue.num "0.42") := by
  obtain ⟨m', params, hm', hres', hbody⟩ := transformReq_ok_inv hout
  rw [hm] at hm'
  have hmm : m = m' := JValue.str.inj (Option.some.inj hm')
  subst hmm
  rw [hres] at hres'
  have hpair := Option.some.inj hres'
  have hp : p = params := congrArg Prod.fst hpair
  subst hp
  have hget : jGet out.body "temperature" =
      jGet (applySamplingParams d p cfg.enforce) "temperature" := by
    rcases hbody with ⟨kw, hkw, hb⟩ | ⟨hkw, hb⟩ <;>
      rw [hb, jGet_jInsert_ne _ _ _ _ (by decide), jGet_jInsert_ne _ _ _ _ (by decide)]
  rw [hget]
  cases hE : cfg.enforce with
  | false =>
    simp only [Bool.false_eq_true, if_false]
    rw [applySamplingParams_fill_keep (by rw [htemp]; rfl), htemp]
  | true =>
    simp only [if_true]
    obtain ⟨v, hv, hmem⟩ := resolveModel_temperature hres
    rw [applySamplingParams_enforce_get (resolveModel_keys_nodup hres) hmem, hv]

theorem claim8_witness :
    jGet bodyEx8 "temperature" =
      if cfgEx.enforce then jGet instructGeneralParams "temperature"
      else some (JValue.num "0.42") :=
  claim8_fill_enforce cfgEx reqEx8 "ig" instructGeneralParams false
    ⟨bodyEx8, false, false⟩ rfl rfl rfl rfl

/-- **C10.** For every accepted request, every top-level field other than
`model`, the six sampling keys, and `chat_template_kwargs` maps in the
outgoing body to the same JSON value as in the incoming body. -/
theorem claim10_frame (cfg : ProxyConfig) (d : JObj) (out : TransformOut)
    (k : String)
    (h : transformReq cfg (ParseOutcome.obj d) = Except.ok out)
    (hk : k ∉ "model" :: "chat_template_kwargs" :: samplingKeys) :
    jGet out.body k = jGet d k := by
  obtain ⟨m, params, hm, hres, hbody⟩ := transformReq_ok_inv h
  have h1 : k ≠ "model" := fun hh => hk (by simp [hh])
  have h2 : k ≠ "chat_template_kwargs" := fun hh => hk (by simp [hh])
  have h3 : k ∉ params.map Prod.fst := by
    rw [resolveModel_keys hres]
    intro hh
    exact hk (by simp [hh])
  rcases hbody with ⟨kw, hkw, hb⟩ | ⟨hkw, hb⟩ <;>
    rw [hb, jGet_jInsert_ne _ _ _ _ h2, jGet_jInsert_ne _ _ _ _ h1,
      applySamplingParams_frame _ h3]

theorem claim10_witness :
    jGet bodyEx10 "messages" = jGet reqEx10 "messages" :=
  claim10_frame cfgEx reqEx10 ⟨bodyEx10, true, false⟩ "messages" rfl (by decide)

/-! ### Buffered-response lemmas -/

theorem choiceMessage_get {m : JObj} {key : String} {msg : JObj}
    (h : choiceMessage m = some (key, msg)) :
    jGet m key = some (JValue.obj msg) := by
  unfold choiceMessage at h
  split at h
  · rename_i msg' hmsg
    cases h
    exact hmsg
  · split at h
    · rename_i d hd
      cases h
      exact hd
    · exact absurd h (by simp)

theorem fixMessage_of_not {msg : JObj} (h : msgFixes msg = false) :
    fixMessage msg = msg := by
  simp [fixMessage, h]

theorem fixChoice_of_not {c : JValue} (h : choiceFixes c = false) :
    fixChoice c = c := by
  cases c with
  | obj m =>
    have h' : (match choiceMessage m with
        | some (_, msg) => msgFixes msg
        | none => false) = false := h
    show (match choiceMessage m with
      | some (key, msg) => JValue.obj (jInsert m key (JValue.obj (fixMessage msg)))
      | none => JValue.obj m) = JValue.obj m
    cases hcm : choiceMessage m with
    | none => rfl
    | some pr =>
      obtain ⟨key, msg⟩ := pr
      rw [hcm] at h'
      have h'' : msgFixes msg = false := h'
      show JValue.obj (jInsert m key (JValue.obj (fixMessage msg))) = JValue.obj m
      rw [fixMessage_of_not h'', jInsert_eq_self (choiceMessage_get hcm)]
  | null => rfl
  | bool b => rfl
  | num l => rfl
  | str s => rfl
  | arr es => rfl

theorem fixVLLMResponse_nonthinking {o : JObj} {cs : List JValue}
    (h : jGet o "choices" = some (JValue.arr cs)) (hne : cs ≠ []) :
    fixVLLMResponse (RespBody.val o) false false
      = RespBody.val (jInsert o "choices" (JValue.arr (cs.map fixChoice))) := by
  have hstep : fixVLLMResponse (RespBody.val o) false false = fixVLLMObj o := rfl
  rw [hstep]
  unfold fixVLLMObj
  rw [h]
  cases cs with
  | nil => exact absurd rfl hne
  | cons c cs' =>
    show (if (c :: cs').any choiceFixes then
        RespBody.val (jInsert o "choices" (JValue.arr ((c :: cs').map fixChoice)))
      else RespBody.val o) = _
    by_cases hany : (c :: cs').any choiceFixes = true
    · rw [if_pos hany]
    · rw [if_neg hany]
      have hanyf : (c :: cs').any choiceFixes = false := by
        cases hb : (c :: cs').any choiceFixes
        · rfl
        · exact absurd hb hany
      have hall : ∀ x ∈ c :: cs', fixChoice x = x := by
        intro x hx
        apply fixChoice_of_not
        have := List.any_eq_false.mp hanyf x hx
        cases hb : choiceFixes x
        · rfl
        · exact absurd hb this
      have hmap : (c :: cs').map fixChoice = c :: cs' := by
        rw [List.map_congr_left hall, List.map_id']
      rw [hmap, jInsert_eq_self h]

/-- **C2.** Under a non-thinking model, buffered (stream=false) and with a
non-empty `choices` array, the body becomes the per-choice fix of every choice
(a choice needing no fix is value-identical), where a message whose `content`
is absent or empty and whose `reasoning_content` (preferred) or `reasoning`
holds non-empty text gets that text moved into `content` with both source
fields deleted; under a thinking model the content fix is the identity, so the
buffered path degrades to the model-name rewrite alone. -/
theorem claim2_content_fix (o : JObj) (cs : List JValue)
    (h : jGet o "choices" = some (JValue.arr cs)) (hne : cs ≠ []) :
    fixVLLMResponse (RespBody.val o) false false
      = RespBody.val (jInsert o "choices" (JValue.arr (cs.map fixChoice))) ∧
    (∀ msg : JObj, ∀ rc : String, rc ≠ "" →
      jGet msg "reasoning_content" = some (JValue.str rc) →
      (jGet msg "content" = none ∨ jGet msg "content" = some (JValue.str "")) →
      jGet (fixMessage msg) "content" = some (JValue.str rc) ∧
      jGet (fixMessage msg) "reasoning_content" = none ∧
      jGet (fixMessage msg) "reasoning" = none) ∧
    (∀ msg : JObj, ∀ r : String, r ≠ "" →
      jGet msg "reasoning" = some (JValue.str r) →
      (jGet msg "reasoning_content" = none ∨
        jGet msg "reasoning_content" = some (JValue.str "")) →
      (jGet msg "content" = none ∨ jGet msg "content" = some (JValue.str "")) →
      jGet (fixMessage msg) "content" = some (JValue.str r) ∧
      jGet (fixMessage msg) "reasoning_content" = none ∧
      jGet (fixMessage msg) "reasoning" = none) ∧
    (∀ (b : RespBody) (st : Bool) (virt : String),
      fixVLLMResponse b true st = b ∧
      rectifyBuffered b true virt = fixModelName b virt) := by
  refine ⟨fixVLLMResponse_nonthinking h hne, ?_, ?_, ?_⟩
  · intro msg rc hrcne hrc hcontent
    have hce : contentEmpty msg = true := by
      rcases hcontent with hc | hc <;> simp [contentEmpty, hc]
    have hhr : hasReasoningField msg = true := by
      simp [hasReasoningField, hrc]
    have hrt : reasoningText msg = rc := by
      simp [reasoningText, hrc, hrcne]
    have hfix : msgFixes msg = true := by
      simp [msgFixes, hce, hhr, hrt, hrcne]
    have h1 : fixMessage msg
        = jErase (jErase (jInsert msg "content" (JValue.str rc))
            "reasoning_content") "reasoning" := by
      simp [fixMessage, hfix, hrt]
    rw [h1]
    refine ⟨?_, ?_, jGet_jErase_self _ _⟩
    · rw [jGet_jErase_ne _ _ _ (by decide), jGet_jErase_ne _ _ _ (by decide),
        jGet_jInsert_self]
    · rw [jGet_jErase_ne _ _ _ (by decide), jGet_jErase_self]
  · intro msg r hrne hr hrcn hcontent
    have hce : contentEmpty msg = true := by
      rcases hcontent with hc | hc <;> simp [contentEmpty, hc]
    have hhr : hasReasoningField msg = true := by
      rcases hrcn with hc | hc <;> simp [hasReasoningField, hr, hc]
    have hrt : reasoningText msg = r := by
      rcases hrcn with hc | hc <;> simp [reasoningText, hc, hr]
    have hfix : msgFixes msg = true := by
      simp [msgFixes, hce, hhr, hrt, hrne]
    have h1 : fixMessage msg
        = jErase (jErase (jInsert msg "content" (JValue.str r))
            "reasoning_content") "reasoning" := by
      simp [fixMessage, hfix, hrt]
    rw [h1]
    refine ⟨?_, ?_, jGet_jErase_self _ _⟩
    · rw [jGet_jErase_ne _ _ _ (by decide), jGet_jErase_ne _ _ _ (by decide),
        jGet_jInsert_self]
    · rw [jGet_jErase_ne _ _ _ (by decide), jGet_jErase_self]
  · intro b st virt
    have hid : ∀ s : Bool, fixVLLMResponse b true s = b := by
      intro s
      unfold fixVLLMResponse
      rw [if_pos (by simp)]
    exact ⟨hid st, by unfold rectifyBuffered; rw [hid false]⟩

theorem claim2_witness :
    fixVLLMResponse (RespBody.val respEx2) false false
      = RespBody.val (jInsert respEx2 "choices"
          (JValue.arr ([JValue.obj [("message", JValue.obj msgEx2)]].map fixChoice))) ∧
    jGet (fixMessage msgEx2) "content" = some (JValue.str "hello") ∧
    jGet (fixMessage msgEx2) "reasoning_content" = none ∧
    jGet (fixMessage msgEx2) "reasoning" = none := by
  have h := claim2_content_fix respEx2 [JValue.obj [("message", JValue.obj msgEx2)]]
    rfl (by simp)
  have h2 := h.2.1 msgEx2 "hello" (by decide) rfl (Or.inr rfl)
  exact ⟨h.1, h2.1, h2.2.1, h2.2.2⟩

/-- **C6.** The buffered model-name restoration `fixModelName` performs an
unchecked string type assertion on a present `model` field
(src/transform.go 326), so its panic branch (`none` in the embedding) is
reachable on `{"model":3}`; the streaming counterpart `fixModelNameInSSE`
type-checks the field (src/transform.go 420) and returns the same event
untouched. -/
theorem claim6_unchecked_assertion :
    fixModelName (RespBody.val [("model", JValue.num "3")]) "virt" = none ∧
    fixModelNameInSSE ("data: \x7b\"model\":3\x7d\n\n".data) "virt"
      = "data: \x7b\"model\":3\x7d\n\n".data :=
  ⟨rfl, rfl⟩

/-- **C9.** A buffered backend body that `json.Unmarshal` rejects passes
through both repairs byte-for-byte and the buffered pipeline returns it
without error (no panic branch is reached). -/
theorem claim9_passthrough (s : String) (think stream : Bool) (virt : String) :
    fixVLLMResponse (RespBody.raw s) think stream = RespBody.raw s ∧
    fixModelName (RespBody.raw s) virt = some (RespBody.raw s) ∧
    rectifyBuffered (RespBody.raw s) think virt = some (RespBody.raw s) := by
  refine ⟨?_, rfl, ?_⟩
  · cases think <;> cases stream <;> rfl
  · cases think <;> rfl

/-! ### Stream reframer lemmas -/

theorem findDoubleNL_append {l : List Char} {i : Nat} (t : List Char)
    (h : findDoubleNL l = some i) : findDoubleNL (l ++ t) = some i := by
  induction l generalizing i with
  | nil => simp [findDoubleNL] at h
  | cons a tail ih =>
    cases tail with
    | nil => simp [findDoubleNL] at h
    | cons b rest =>
      by_cases hnl : a = '\n' ∧ b = '\n'
      · simp [findDoubleNL, hnl] at h ⊢
        omega
      · simp only [findDoubleNL, if_neg hnl, List.cons_append] at h ⊢
        obtain ⟨j, hj, hij⟩ := Option.map_eq_some'.mp h
        have h2 : findDoubleNL (b :: (rest ++ t)) = some j := ih hj
        show Option.map (fun x => x + 1) (findDoubleNL (b :: (rest ++ t))) = some i
        rw [h2]
        simp [hij]

theorem processBuffer_none {buf : List Char} (h : findDoubleNL buf = none) :
    processBuffer buf = ([], buf) := by
  rw [processBuffer]
  simp [h]

theorem processBuffer_some {buf : List Char} {i : Nat}
    (h : findDoubleNL buf = some i) :
    processBuffer buf = (buf.take (i + 2) :: (processBuffer (buf.drop (i + 2))).1,
      (processBuffer (buf.drop (i + 2))).2) := by
  rw [processBuffer]
  simp [h]

theorem processBuffer_flatten (buf : List Char) :
    (processBuffer buf).1.flatten ++ (processBuffer buf).2 = buf := by
  have main : ∀ n (l : List Char), l.length ≤ n →
      (processBuffer l).1.flatten ++ (processBuffer l).2 = l := by
    intro n
    induction n with
    | zero =>
      intro l hl
      cases hf : findDoubleNL l with
      | none => simp [processBuffer_none hf]
      | some i =>
        have := findDoubleNL_some_le hf
        omega
    | succ m ih =>
      intro l hl
      cases hf : findDoubleNL l with
      | none => simp [processBuffer_none hf]
      | some i =>
        have hle := findDoubleNL_some_le hf
        rw [processBuffer_some hf]
        have hdrop : (l.drop (i + 2)).length ≤ m := by
          simp [List.length_drop]
          omega
        simp only [List.flatten_cons, List.append_assoc, ih (l.drop (i + 2)) hdrop]
        exact List.take_append_drop _ _
  exact main buf.length buf le_rfl

theorem processBuffer_proper_join {es : List (List Char)}
    (hes : ∀ e ∈ es, properEvent e) :
    processBuffer es.flatten = (es, []) := by
  induction es with
  | nil => exact processBuffer_none rfl
  | cons e es' ih =>
    have hp : findDoubleNL e = some (e.length - 2) := hes e (List.mem_cons_self _ _)
    have hlen : 2 ≤ e.length := by
      have := findDoubleNL_some_le hp
      omega
    have hfull : findDoubleNL (e ++ es'.flatten) = some (e.length - 2) :=
      findDoubleNL_append _ hp
    rw [List.flatten_cons, processBuffer_some hfull]
    have h2 : e.length - 2 + 2 = e.length := by omega
    rw [h2, List.take_left, List.drop_left,
      ih (fun x hx => hes x (List.mem_cons_of_mem _ hx))]

theorem streamStepWith_conserve (buf chunk : List Char) :
    (streamStepWith id buf chunk).1.flatten ++ (streamStepWith id buf chunk).2
      = buf ++ chunk := by
  unfold streamStepWith
  by_cases hc : (processBuffer (buf ++ chunk)).2.length > 8192
  · rw [if_pos hc]
    simp only [List.map_id, List.flatten_append, List.flatten_cons,
      List.flatten_nil, List.append_nil]
    exact processBuffer_flatten _
  · rw [if_neg hc]
    simp only [List.map_id]
    exact processBuffer_flatten _

theorem streamLoopWith_conserve (buf : List Char) (chunks : List (List Char)) :
    (streamLoopWith id buf chunks).flatten = buf ++ chunks.flatten := by
  induction chunks generalizing buf with
  | nil =>
    by_cases hb : buf = []
    · simp [streamLoopWith, hb]
    · simp [streamLoopWith, hb]
  | cons c cs ih =>
    show ((streamStepWith id buf c).1 ++
        streamLoopWith id (streamStepWith id buf c).2 cs).flatten = _
    rw [List.flatten_append, ih, ← List.append_assoc, streamStepWith_conserve,
      List.flatten_cons, List.append_assoc]

/-- **C7.** The stream reframer's safety valve and conservation: whenever the
remainder after extracting all complete events exceeds 8192 bytes, the raw
remainder is written verbatim and the buffer reset; the retained buffer is
bounded by 8192 at the end of every read iteration; on EOF the residue is
flushed verbatim; and with the identity event rewrite the written bytes are
exactly the read bytes — the framing layer never drops a byte. -/
theorem claim7_reframer :
    (∀ (f : List Char → List Char) (buf chunk : List Char),
      8192 < (processBuffer (buf ++ chunk)).2.length →
      streamStepWith f buf chunk
        = ((processBuffer (buf ++ chunk)).1.map f ++
            [(processBuffer (buf ++ chunk)).2], [])) ∧
    (∀ (f : List Char → List Char) (buf chunk : List Char),
      (streamStepWith f buf chunk).2.length ≤ 8192) ∧
    (∀ (f : List Char → List Char) (buf : List Char), buf ≠ [] →
      streamLoopWith f buf [] = [buf]) ∧
    (∀ chunks : List (List Char),
      (streamLoopWith id [] chunks).flatten = chunks.flatten) ∧
    (∀ (virt : String) (chunks : List (List Char)),
      streamResponse virt chunks = streamLoopWith (emitEvent virt) [] chunks) := by
  refine ⟨?_, ?_, ?_, ?_, fun _ _ => rfl⟩
  · intro f buf chunk hc
    unfold streamStepWith
    rw [if_pos hc]
  · intro f buf chunk
    unfold streamStepWith
    by_cases hc : (processBuffer (buf ++ chunk)).2.length > 8192
    · rw [if_pos hc]
      simp
    · rw [if_neg hc]
      show (processBuffer (buf ++ chunk)).2.length ≤ 8192
      omega
  · intro f buf hb
    show (if buf = [] then [] else [buf]) = [buf]
    rw [if_neg hb]
  · intro chunks
    simpa using streamLoopWith_conserve [] chunks

theorem findDoubleNL_replicate (n : Nat) :
    findDoubleNL (List.replicate n 'a') = none := by
  induction n with
  | zero => rfl
  | succ m ih =>
    cases m with
    | zero => rfl
    | succ m' =>
      show findDoubleNL ('a' :: 'a' :: List.replicate m' 'a') = none
      have hrep : ('a' :: List.replicate m' 'a') = List.replicate (m' + 1) 'a' := rfl
      simp [findDoubleNL, hrep, ih]

theorem claim7_witness :
    streamStepWith id [] (List.replicate 8193 'a') = ([List.replicate 8193 'a'], []) ∧
    streamLoopWith id ['x'] [] = [['x']] := by
  have hpb : processBuffer (List.replicate 8193 'a') = ([], List.replicate 8193 'a') :=
    processBuffer_none (findDoubleNL_replicate 8193)
  constructor
  · have hA := claim7_reframer.1 id [] (List.replicate 8193 'a') (by
      rw [List.nil_append, hpb]
      show 8192 < (List.replicate 8193 'a').length
      rw [List.length_replicate]
      omega)
    rw [List.nil_append, hpb] at hA
    exact hA.trans rfl
  · exact claim7_reframer.2.2.1 id ['x'] (List.cons_ne_nil _ _)

theorem streamResponse_proper (virt : String) (es : List (List Char))
    (hes : ∀ e ∈ es, properEvent e) :
    streamResponse virt [es.flatten] = es.map (emitEvent virt) := by
  have hp := processBuffer_proper_join hes
  have hstep : streamStepWith (emitEvent virt) [] es.flatten
      = (es.map (emitEvent virt), []) := by
    unfold streamStepWith
    rw [List.nil_append, hp]
    rw [if_neg (by simp)]
  show (streamStepWith (emitEvent virt) [] es.flatten).1 ++
      streamLoopWith (emitEvent virt) (streamStepWith (emitEvent virt) [] es.flatten).2 []
      = es.map (emitEvent virt)
  rw [hstep]
  simp [streamLoopWith]

theorem emitEvent_rewrite (virt : String) (payload : List Char) (o : JObj)
    (mname : String)
    (hparse : goUnmarshal (goTrimSpace payload) = some (JValue.obj o))
    (hmodel : jGet o "model" = some (JValue.str mname)) :
    emitEvent virt (dataColonSpace ++ payload)
      = dataColonSpace ++
        goMarshal (JValue.obj (jInsert o "model" (JValue.str virt))) ++
        ['\n', '\n'] := by
  have hpre : dataColonSpace.isPrefixOf (dataColonSpace ++ payload) = true :=
    List.isPrefixOf_iff_prefix.mpr (List.prefix_append _ _)
  have hdrop : (dataColonSpace ++ payload).drop 6 = payload := by
    have h6 : dataColonSpace.length = 6 := rfl
    rw [← h6, List.drop_left]
  have hne1 : ¬(goTrimSpace payload = [] ∨ goTrimSpace payload = doneLit) := by
    rintro (hh | hh)
    · rw [hh, show goUnmarshal ([] : List Char) = none from rfl] at hparse
      exact Option.noConfusion hparse
    · rw [hh, show goUnmarshal doneLit = none from rfl] at hparse
      exact Option.noConfusion hparse
  unfold emitEvent
  rw [if_pos hpre]
  unfold fixModelNameInSSE
  rw [if_pos hpre, hdrop, if_neg hne1]
  simp only [hparse, hmodel]

theorem emitEvent_done (virt : String) (payload : List Char)
    (h : goTrimSpace payload = [] ∨ goTrimSpace payload = doneLit) :
    emitEvent virt (dataColonSpace ++ payload) = dataColonSpace ++ payload := by
  have hpre : dataColonSpace.isPrefixOf (dataColonSpace ++ payload) = true :=
    List.isPrefixOf_iff_prefix.mpr (List.prefix_append _ _)
  have hdrop : (dataColonSpace ++ payload).drop 6 = payload := by
    have h6 : dataColonSpace.length = 6 := rfl
    rw [← h6, List.drop_left]
  unfold emitEvent
  rw [if_pos hpre]
  unfold fixModelNameInSSE
  rw [if_pos hpre, hdrop, if_pos h]

/-! ### Chunk-boundary reassembly -/

theorem findDoubleNL_prefix_none {e P : List Char} (hp : properEvent e)
    (hpre : P <+: e) (hlt : P.length < e.length) : findDoubleNL P = none := by
  cases hf : findDoubleNL P with
  | none => rfl
  | some i =>
    obtain ⟨t, ht⟩ := hpre
    have h1 : findDoubleNL (P ++ t) = some i := findDoubleNL_append t hf
    rw [ht] at h1
    rw [hp] at h1
    have h2 := findDoubleNL_some_le hf
    have h3 := findDoubleNL_some_le hp
    have h4 : e.length - 2 = i := Option.some.inj h1
    omega

theorem processBuffer_prefix :
    ∀ (es : List (List Char)) (P : List Char),
    (∀ e ∈ es, properEvent e) → P <+: es.flatten →
    ∃ es1 es2 r, es = es1 ++ es2 ∧ P = es1.flatten ++ r ∧
      processBuffer P = (es1, r) ∧
      ((es2 = [] ∧ r = []) ∨
        ∃ e2 es2', es2 = e2 :: es2' ∧ r <+: e2 ∧ r.length < e2.length) := by
  intro es
  induction es with
  | nil =>
    intro P hes hP
    have hPnil : P = [] := List.prefix_nil.mp hP
    subst hPnil
    exact ⟨[], [], [], rfl, rfl, processBuffer_none rfl, Or.inl ⟨rfl, rfl⟩⟩
  | cons e es' ih =>
    intro P hes hP
    have he : properEvent e := hes e (List.mem_cons_self _ _)
    have hepre : e <+: (e :: es').flatten := ⟨es'.flatten, rfl⟩
    by_cases hc : e.length ≤ P.length
    · obtain ⟨t, ht⟩ := List.prefix_of_prefix_length_le hepre hP hc
      have htpre : t <+: es'.flatten := by
        obtain ⟨u, hu⟩ := hP
        refine ⟨u, ?_⟩
        rw [← ht, List.flatten_cons, List.append_assoc] at hu
        exact List.append_cancel_left hu
      obtain ⟨es1', es2, r, h1, h2, h3, h4⟩ :=
        ih t (fun x hx => hes x (List.mem_cons_of_mem _ hx)) htpre
      have hlen2 : 2 ≤ e.length := by
        have := findDoubleNL_some_le he
        omega
      have hfind : findDoubleNL P = some (e.length - 2) := by
        rw [← ht]
        exact findDoubleNL_append t he
      have hsub : e.length - 2 + 2 = e.length := by omega
      have hpb : processBuffer P = (e :: es1', r) := by
        rw [processBuffer_some hfind, hsub, ← ht, List.take_left, List.drop_left, h3]
      refine ⟨e :: es1', es2, r, ?_, ?_, hpb, h4⟩
      · rw [List.cons_append, h1]
      · rw [← ht, h2, List.flatten_cons, List.append_assoc]
    · have hlt : P.length < e.length := by omega
      have hPe : P <+: e := List.prefix_of_prefix_length_le hP hepre (by omega)
      exact ⟨[], e :: es', P, rfl, by simp, processBuffer_none
        (findDoubleNL_prefix_none he hPe hlt), Or.inr ⟨e, es', rfl, hPe, hlt⟩⟩

theorem streamLoopWith_chunked_aux (f : List Char → List Char) :
    ∀ (chunks : List (List Char)) (b : List Char) (es : List (List Char)),
    (∀ e ∈ es, properEvent e) → (∀ e ∈ es, e.length ≤ 8193) →
    b ++ chunks.flatten = es.flatten → findDoubleNL b = none →
    streamLoopWith f b chunks = es.map f := by
  intro chunks
  induction chunks with
  | nil =>
    intro b es hes hlen hjoin hb
    rw [List.flatten_nil, List.append_nil] at hjoin
    cases es with
    | nil =>
      rw [List.flatten_nil] at hjoin
      subst hjoin
      rfl
    | cons e es' =>
      exfalso
      have he : properEvent e := hes e (List.mem_cons_self _ _)
      have hsome : findDoubleNL b = some (e.length - 2) := by
        rw [hjoin, List.flatten_cons]
        exact findDoubleNL_append _ he
      rw [hb] at hsome
      exact Option.noConfusion hsome
  | cons c cs ih =>
    intro b es hes hlen hjoin hb
    have hP : (b ++ c) <+: es.flatten := by
      refine ⟨cs.flatten, ?_⟩
      rw [List.append_assoc, ← List.flatten_cons]
      exact hjoin
    obtain ⟨es1, es2, r, h1, h2, h3, h4⟩ := processBuffer_prefix es (b ++ c) hes hP
    have hrlen : r.length ≤ 8192 := by
      rcases h4 with ⟨_, hr⟩ | ⟨e2, es2', he2, hpre, hlt⟩
      · rw [hr]
        simp
      · have : e2.length ≤ 8193 := hlen e2 (by
          rw [h1, he2]
          exact List.mem_append_right _ (List.mem_cons_self _ _))
        omega
    have hrn : findDoubleNL r = none := by
      rcases h4 with ⟨_, hr⟩ | ⟨e2, es2', he2, hpre, hlt⟩
      · rw [hr]
        rfl
      · exact findDoubleNL_prefix_none (hes e2 (by
          rw [h1, he2]
          exact List.mem_append_right _ (List.mem_cons_self _ _))) hpre hlt
    have hstep : streamStepWith f b c = (es1.map f, r) := by
      unfold streamStepWith
      rw [h3]
      have hnot : ¬((es1, r).2.length > 8192) := by
        show ¬(r.length > 8192)
        omega
      rw [if_neg hnot]
    show (streamStepWith f b c).1 ++ streamLoopWith f (streamStepWith f b c).2 cs
      = es.map f
    rw [hstep]
    have hjoin2 : r ++ cs.flatten = es2.flatten := by
      have hboth : es1.flatten ++ (r ++ cs.flatten) = es1.flatten ++ es2.flatten := by
        rw [← List.append_assoc, ← h2, List.append_assoc, ← List.flatten_cons,
          hjoin, h1, List.flatten_append]
      exact List.append_cancel_left hboth
    have hrec := ih r es2
      (fun x hx => hes x (by rw [h1]; exact List.mem_append_right _ hx))
      (fun x hx => hlen x (by rw [h1]; exact List.mem_append_right _ hx)) hjoin2 hrn
    rw [hrec, h1, List.map_append]

theorem streamResponse_chunked (virt : String) (es chunks : List (List Char))
    (hes : ∀ e ∈ es, properEvent e) (hlen : ∀ e ∈ es, e.length ≤ 8193)
    (hjoin : chunks.flatten = es.flatten) :
    streamResponse virt chunks = es.map (emitEvent virt) :=
  streamLoopWith_chunked_aux (emitEvent virt) chunks [] es hes hlen
    (by simpa using hjoin) rfl

/-- **C3.** Streamed frames are rewritten one by one: (a) a properly framed
single-read stream is emitted as the per-frame rewrite of each frame; (b) the
same holds across arbitrary read-chunk boundaries whenever no frame exceeds
the 8 KiB watermark (the reframer reassembles split frames); (c) a `data: `
frame whose payload is a JSON object with a string `model` field is re-emitted
as `data: <json-with-model-rewritten>\n\n`; (d) a frame whose payload is
`[DONE]` or empty is passed through byte-for-byte. -/
theorem claim3_stream_rewrite :
    (∀ (virt : String) (es : List (List Char)), (∀ e ∈ es, properEvent e) →
      streamResponse virt [es.flatten] = es.map (emitEvent virt)) ∧
    (∀ (virt : String) (es chunks : List (List Char)),
      (∀ e ∈ es, properEvent e) → (∀ e ∈ es, e.length ≤ 8193) →
      chunks.flatten = es.flatten →
      streamResponse virt chunks = es.map (emitEvent virt)) ∧
    (∀ (virt : String) (payload : List Char) (o : JObj) (mname : String),
      goUnmarshal (goTrimSpace payload) = some (JValue.obj o) →
      jGet o "model" = some (JValue.str mname) →
      emitEvent virt (dataColonSpace ++ payload)
        = dataColonSpace ++
          goMarshal (JValue.obj (jInsert o "model" (JValue.str virt))) ++
          ['\n', '\n']) ∧
    (∀ (virt : String) (payload : List Char),
      goTrimSpace payload = [] ∨ goTrimSpace payload = doneLit →
      emitEvent virt (dataColonSpace ++ payload) = dataColonSpace ++ payload) :=
  ⟨streamResponse_proper, streamResponse_chunked, emitEvent_rewrite, emitEvent_done⟩

theorem claim3_witness :
    streamResponse "virt"
        [(["data: \x7b\"model\":\"served\"\x7d\n\n".data,
           "data: [DONE]\n\n".data]).flatten]
      = ["data: \x7b\"model\":\"served\"\x7d\n\n".data,
         "data: [DONE]\n\n".data].map (emitEvent "virt") ∧
    streamResponse "virt"
        ["data: \x7b\"mod".data, "el\":\"served\"\x7d\n\ndata: [DONE]\n\n".data]
      = ["data: \x7b\"model\":\"served\"\x7d\n\n".data,
         "data: [DONE]\n\n".data].map (emitEvent "virt") ∧
    emitEvent "virt" (dataColonSpace ++ "\x7b\"model\":\"served\"\x7d\n\n".data)
      = dataColonSpace ++
        goMarshal (JValue.obj (jInsert [("model", JValue.str "served")] "model"
          (JValue.str "virt"))) ++ ['\n', '\n'] ∧
    emitEvent "virt" (dataColonSpace ++ "[DONE]\n\n".data)
      = dataColonSpace ++ "[DONE]\n\n".data := by
  have hes : ∀ e ∈ ["data: \x7b\"model\":\"served\"\x7d\n\n".data,
      "data: [DONE]\n\n".data], properEvent e := by
    intro e he
    simp only [List.mem_cons, List.not_mem_nil, or_false] at he
    rcases he with h | h <;> subst h <;> decide
  refine ⟨claim3_stream_rewrite.1 "virt" _ hes,
    claim3_stream_rewrite.2.1 "virt" _ _ hes ?_ rfl,
    claim3_stream_rewrite.2.2.1 "virt" _ [("model", JValue.str "served")] "served"
      rfl rfl,
    claim3_stream_rewrite.2.2.2 "virt" _ (Or.inr rfl)⟩
  intro e he
  simp only [List.mem_cons, List.not_mem_nil, or_false] at he
  rcases he with h | h <;> subst h <;> decide
